import Mathlib

/-!
Verification development for the SDT-Training repository.

It gives a shallow embedding of the three core components:

* the learnable dense layer history of `fairseq/modules/layer_history.py`
  (`LearnableDenseLayerHistory`), with tensors modelled as elements of a
  `ℚ`-module `α` (elementwise arithmetic) and the external `LayerNorm`
  modules modelled as an abstract family of maps `Nat → α → α`;
* the selective-depth encoder forward protocol of
  `fairseq/models/sdt_transformer.py` (`TransformerEncoder.forward`),
  abstracted to the sequence of history `record`/`combine` events it emits;
* the checkpoint depth-expansion utility `stack.py`, with snapshot keys
  modelled as their dot-split component lists and Python `IndexError` /
  `ValueError` crashes modelled in the `Except Unit` monad.

Theorems named `C1_…` … `C10_…` settle the corresponding claims.
-/

namespace SDT

/-- State of a `LearnableDenseLayerHistory` module instance.
`layers` (the ledger) is `none` until the first `clean` call: the Python
constructor never creates the `self.layers` attribute, only `clean` does.
`weight` is the learnable matrix (entries outside the `layer_num` square are
never accessed by well-formed calls), `layer_norms` the bank of
normalization units indexed by slot. -/
structure HistoryState (α : Type) where
  layers : Option (List α)
  sum : Option α
  count : Nat
  layer_num : Nat
  weight : Nat → Nat → ℚ
  normalize_before : Bool
  layer_norms : Nat → α → α

/-- Entry `(i, j)` of `torch.Tensor(n, n).fill_(1.0).tril()`. -/
def trilOnes (n i j : Nat) : ℚ := if i < n ∧ j < n ∧ j ≤ i then 1 else 0

/-- Row `i` sum of an `n`-column matrix: `w.sum(1)`. -/
def rowSumN (n : Nat) (w : Nat → Nat → ℚ) (i : Nat) : ℚ :=
  ((List.range n).map (w i)).sum

/-- The constructor's weight initialization:
`self.weight.data = self.weight.data / self.weight.data.sum(1, keepdim=True)`
applied to the lower-triangular all-ones matrix. -/
def initWeight (n : Nat) (i j : Nat) : ℚ :=
  trilOnes n i j / rowSumN n (trilOnes n) i

/-- `LearnableDenseLayerHistory.__init__`: `sum = None`, `count = 0`,
`layer_num = len(args.k)`, weight as `initWeight`; the `layers` attribute is
not created.  `nb` is `args.encoder_normalize_before`, `norms` the external
`LayerNorm` bank. -/
def mkHistory {α : Type} (kLen : Nat) (nb : Bool) (norms : Nat → α → α) :
    HistoryState α :=
  { layers := none
    sum := none
    count := 0
    layer_num := kLen
    weight := initWeight kLen
    normalize_before := nb
    layer_norms := norms }

/-- `clean`: `self.sum = None; self.count = 0; self.layers = []`. -/
def HistoryState.clean {α : Type} (s : HistoryState α) : HistoryState α :=
  { s with sum := none, count := 0, layers := some [] }

/-- `add(layer)`: increments `count`; on the first call stores `sum` and
appends the raw tensor; on later calls appends the tensor, normalized by
slot `count - 2` when `normalize_before` is set.  Returns `none` when the
`layers` attribute does not exist yet (Python `AttributeError`). -/
def HistoryState.add {α : Type} (s : HistoryState α) (x : α) :
    Option (HistoryState α) :=
  let s1 := { s with count := s.count + 1 }
  match s1.sum with
  | none =>
    match s1.layers with
    | none => none
    | some ld => some { s1 with sum := some x, layers := some (ld ++ [x]) }
  | some _ =>
    let x1 := if s1.normalize_before = true then s1.layer_norms (s1.count - 2) x else x
    match s1.layers with
    | none => none
    | some ld => some { s1 with layers := some (ld ++ [x1]) }

/-- `pop()`: asserts the ledger is non-empty, computes
`(torch.stack(self.layers, 0) * self.weight[self.count - 1, : self.count].view(-1,1,1,1)).sum(0)`
(the weight slice has `self.count` entries; the stack and the slice must
have equal length, which holds whenever `count` and the ledger are in
sync), then returns it raw when `count == 1` or `normalize_before`, else
normalized by slot `count - 2`.  The method performs no assignment, so the
returned state is the input state.  `none` models the `AttributeError`
(missing `layers`) or the failing `assert`. -/
def HistoryState.pop {α : Type} [AddCommMonoid α] [Module ℚ α]
    (s : HistoryState α) : Option (α × HistoryState α) :=
  match s.layers with
  | none => none
  | some ld =>
    if ld.length = 0 then none
    else
      let ret := ((List.range s.count).map
        (fun j => s.weight (s.count - 1) j • ld.getD j 0)).sum
      some ((if s.count = 1 ∨ s.normalize_before = true then ret
             else s.layer_norms (s.count - 2) ret), s)

/-- `get_loss()`: `(0.5 * (self.weight.sum(1) - 1.0) ** 2).mean()`; the
mean runs over the `layer_num` rows.  The method performs no assignment,
so the returned state is the input state. -/
def HistoryState.get_loss {α : Type} (s : HistoryState α) :
    ℚ × HistoryState α :=
  ((((List.range s.layer_num).map
      (fun i => (1/2 : ℚ) * (rowSumN s.layer_num s.weight i - 1) ^ 2)).sum)
    / (s.layer_num : ℚ), s)

/-- A sequence of `add` calls (`record` events), in order. -/
def addAll {α : Type} (s : HistoryState α) (xs : List α) :
    Option (HistoryState α) :=
  xs.foldlM HistoryState.add s

/-- Modelled from the spec's words for `combine()` (§4.1): with
`n = len(ledger)`, `ret = Σ_{j=0}^{n-1} weight[n-1, j] * ledger[j]`;
if normalize-before mode is active or `n == 1` the result is returned
unmodified, otherwise it is passed through normalization slot `n - 2`. -/
def combineSpec {α : Type} [AddCommMonoid α] [Module ℚ α]
    (w : Nat → Nat → ℚ) (nb : Bool) (norms : Nat → α → α) (ld : List α) : α :=
  let n := ld.length
  let ret := ((List.range n).map (fun j => w (n - 1) j • ld.getD j 0)).sum
  if nb = true ∨ n = 1 then ret else norms (n - 2) ret

/-- Modelled from the spec's words for the auxiliary loss (§4.1):
`0.5 * mean_i( (Σ_j weight[i,j] - 1)^2 )`. -/
def getLossSpec {α : Type} (s : HistoryState α) : ℚ :=
  (1/2 : ℚ) * (((List.range s.layer_num).map
    (fun i => (rowSumN s.layer_num s.weight i - 1) ^ 2)).sum / (s.layer_num : ℚ))

/-- A history event of the encoder forward pass: a `record` (`history.add`)
or a `combine` (`history.pop`). -/
inductive HEvent where
  | addE : HEvent
  | popE : HEvent
deriving DecidableEq

/-- The sequence of history events emitted by `TransformerEncoder.forward`
with checkpoint list `k` over `L` layers (history configured): one initial
`add` of the embedding, then per layer position `i`: a `pop` before the
layer when `i ∈ k`, otherwise an `add` after the layer when `i + 1 ∈ k`;
finally one `pop` after the loop. -/
def forwardTrace (k : List Nat) (L : Nat) : List HEvent :=
  HEvent.addE ::
    (((List.range L).map (fun i =>
      if i ∈ k then [HEvent.popE]
      else if i + 1 ∈ k then [HEvent.addE]
      else [])).flatten ++ [HEvent.popE])

/-- Number of `record` events in a trace. -/
def countAdds (t : List HEvent) : Nat := t.countP (fun e => e == HEvent.addE)

/-- Number of `combine` events in a trace. -/
def countPops (t : List HEvent) : Nat := t.countP (fun e => e == HEvent.popE)

/-! ## The checkpoint expansion utility `stack.py`

Snapshot keys are modelled as their `'.'.split` component lists; values are
opaque (`v.clone()` is a value copy, hence the identity in a pure model).
Python `IndexError` (component access past the end) and `ValueError`
(`int()` on a non-numeral) abort the run: `Except Unit`. -/

/-- A persisted snapshot: the `model` mapping (insertion-ordered, as a
Python dict), plus the `args.encoder_layers` and `args.k` metadata. -/
structure Ckpt (V : Type) where
  model : List (List String × V)
  encoder_layers : Int
  k : List Int
deriving DecidableEq

/-- Decimal digit-list value (most significant first). -/
def digitsVal (cs : List Char) : Nat :=
  cs.foldl (fun n c => n * 10 + (c.toNat - 48)) 0

/-- Python's `int()` on a string: an optional minus sign followed by at
least one decimal digit (the numerals occurring in snapshot keys);
`none` is a `ValueError`. -/
def pyInt (s : String) : Option Int :=
  match s.data with
  | [] => none
  | '-' :: rest =>
    if rest ≠ [] ∧ rest.all Char.isDigit then some (-(digitsVal rest : Int))
    else none
  | cs =>
    if cs.all Char.isDigit then some ((digitsVal cs : Int)) else none

/-- Evaluation of
`k_split[0] == 'encoder' and k_split[1] == 'layers' and cond(int(k_split[2]))`:
`error` is an uncaught `IndexError`/`ValueError`, `ok (some n)` a match with
parsed position `n`, `ok none` a non-match. -/
def layerTest (cond : Int → Bool) (ks : List String) : Except Unit (Option Int) :=
  match ks with
  | [] => .error ()
  | c0 :: rest0 =>
    if c0 = "encoder" then
      match rest0 with
      | [] => .error ()
      | c1 :: rest1 =>
        if c1 = "layers" then
          match rest1 with
          | [] => .error ()
          | c2 :: _ =>
            match pyInt c2 with
            | none => .error ()
            | some n => .ok (if cond n then some n else none)
        else .ok none
    else .ok none

/-- Evaluation of `k_split[0] == 'encoder' and k_split[1] == 'history' and
k_split[2] == 'layer_norms'` followed by `cond(int(k_split[3]))`. -/
def histTest (cond : Int → Bool) (ks : List String) : Except Unit (Option Int) :=
  match ks with
  | [] => .error ()
  | c0 :: rest0 =>
    if c0 = "encoder" then
      match rest0 with
      | [] => .error ()
      | c1 :: rest1 =>
        if c1 = "history" then
          match rest1 with
          | [] => .error ()
          | c2 :: rest2 =>
            if c2 = "layer_norms" then
              match rest2 with
              | [] => .error ()
              | c3 :: _ =>
                match pyInt c3 with
                | none => .error ()
                | some n => .ok (if cond n then some n else none)
            else .ok none
        else .ok none
    else .ok none

/-- `num_of_layerpara` (rpr network): parameter-name count per layer. -/
def num_of_layerpara : Nat := 13

/-- Strategy-1 counter update after a layer match: `count_layer += 1`, and
on reaching `num_of_layerpara` the target moves up
(`counter_layer -= 1; count_layer = 0`). -/
def bump1 (c : Int) (m : Nat) : Int × Nat :=
  if m + 1 = num_of_layerpara then (c - 1, 0) else (c, m + 1)

/-- Strategy-3 counter update after a layer key: `count += 1`, and on
reaching 13 the interleave offset grows (`layer += 1; count = 0`). -/
def bump3 (layer : Int) (cnt : Nat) : Int × Nat :=
  if cnt + 1 = 13 then (layer + 1, 0) else (layer, cnt + 1)

/-- Strategy 0 (duplicate all) item loop: every `encoder.layers.<p>` key is
cloned to position `p + L`, every `encoder.history.layer_norms.<s>` key to
slot `s + L`. -/
def go0 {V : Type} (L : Int) :
    List (List String × V) → List (List String × V) →
    Except Unit (List (List String × V))
  | [], lst => .ok lst
  | (ks, v) :: items, lst =>
    match layerTest (fun _ => true) ks with
    | .error e => .error e
    | .ok r =>
      match histTest (fun _ => true) ks with
      | .error e => .error e
      | .ok hr =>
        go0 L items
          ((lst ++ (match r with
            | some n => [(ks.set 2 (toString (n + L)), v)]
            | none => [])) ++ (match hr with
            | some sid => [(ks.set 3 (toString (sid + L)), v)]
            | none => []))

/-- Strategy 1 (stack on top) item loop, with mutable `counter_layer` (`c`)
and `count_layer` (`m`): a layer key matches when its position equals
`current_layers - counter_layer` and is cloned to position `+ Δ`; after
`num_of_layerpara` matches the target moves up by one.  A history key
matches when its slot equals `len(k) - 2` and is cloned to the next slot.
(The layer and history patterns are mutually exclusive — component 1 is
`'layers'` vs `'history'` — so the doubly-matching branches are vacuous.) -/
def go1 {V : Type} (L Δ kLen : Int) :
    List (List String × V) → Int → Nat → List (List String × V) →
    Except Unit (List (List String × V))
  | [], _, _, lst => .ok lst
  | (ks, v) :: items, c, m, lst =>
    match layerTest (fun n => n = L - c) ks with
    | .error e => .error e
    | .ok none =>
      match histTest (fun sid => sid = kLen - 2) ks with
      | .error e => .error e
      | .ok none => go1 L Δ kLen items c m lst
      | .ok (some sid) =>
        go1 L Δ kLen items c m (lst ++ [(ks.set 3 (toString (sid + 1)), v)])
    | .ok (some n) =>
      match histTest (fun sid => sid = kLen - 2) ks with
      | .error e => .error e
      | .ok none =>
        go1 L Δ kLen items (bump1 c m).1 (bump1 c m).2
          (lst ++ [(ks.set 2 (toString (n + Δ)), v)])
      | .ok (some sid) =>
        go1 L Δ kLen items (bump1 c m).1 (bump1 c m).2
          (lst ++ [(ks.set 2 (toString (n + Δ)), v), (ks.set 3 (toString (sid + 1)), v)])

/-- Strategy 2 (top only) item loop: keys at position `L - 1` are cloned
`Δ` times to positions `L, …, L + Δ - 1` (`range(counter_layer)` of a
negative Python int is empty, hence `Δ.toNat`); history slot `len(k) - 2`
is cloned to the next slot. -/
def go2 {V : Type} (L Δ kLen : Int) :
    List (List String × V) → List (List String × V) →
    Except Unit (List (List String × V))
  | [], lst => .ok lst
  | (ks, v) :: items, lst =>
    match layerTest (fun n => n = L - 1) ks with
    | .error e => .error e
    | .ok r =>
      match histTest (fun sid => sid = kLen - 2) ks with
      | .error e => .error e
      | .ok hr =>
        go2 L Δ kLen items
          ((lst ++ (match r with
            | some n => (List.range Δ.toNat).map
                (fun i => (ks.set 2 (toString (n + (i : Int) + 1)), v))
            | none => [])) ++ (match hr with
            | some sid => [(ks.set 3 (toString (sid + 1)), v)]
            | none => []))

/-- Strategy 3 (interleave) item loop, with mutable `layer` offset and
`count`: every layer key at position `p` yields keys at `p + layer` and
`p + layer + 1`; after 13 keys the offset grows by one. -/
def go3 {V : Type} :
    List (List String × V) → Int → Nat → List (List String × V) →
    Except Unit (List (List String × V))
  | [], _, _, lst => .ok lst
  | (ks, v) :: items, layer, cnt, lst =>
    match layerTest (fun _ => true) ks with
    | .error e => .error e
    | .ok none => go3 items layer cnt lst
    | .ok (some n) =>
      go3 items (bump3 layer cnt).1 (bump3 layer cnt).2
        (lst ++ [(ks.set 2 (toString (n + layer)), v),
                 (ks.set 2 (toString (n + layer + 1)), v)])

/-- `ckpt['model'][key] = v` on an insertion-ordered dict: replace in place
when the key is present, append otherwise. -/
def dictInsert {V : Type} : List (List String × V) → List String → V →
    List (List String × V)
  | [], key, v => [(key, v)]
  | p :: rest, key, v =>
    if p.1 = key then (key, v) :: rest else p :: dictInsert rest key v

/-- Dict lookup (first, and for a Python dict only, binding of the key). -/
def lookup {V : Type} (m : List (List String × V)) (key : List String) :
    Option V :=
  (m.find? (fun p => decide (p.1 = key))).map (fun p => p.2)

/-- `main()` of `stack.py`, parametrized by the module-level `strategy`
constant and the depth increment `Δ = int(sys.argv[3])`: build the clone
list `lst` by the strategy's item loop, write it into the model dict, and
update `args.encoder_layers` (`*= 2` for strategies 0/3, `+= Δ` for 1/2);
`args.k` is never touched. -/
def mainModel {V : Type} (strategy : Nat) (Δ : Int) (ck : Ckpt V) :
    Except Unit (Ckpt V) :=
  let kLen : Int := (ck.k.length : Int)
  let lstE : Except Unit (List (List String × V)) :=
    if strategy = 0 then go0 ck.encoder_layers ck.model []
    else if strategy = 1 then go1 ck.encoder_layers Δ kLen ck.model Δ 0 []
    else if strategy = 2 then go2 ck.encoder_layers Δ kLen ck.model []
    else if strategy = 3 then go3 ck.model 0 0 []
    else .ok []
  match lstE with
  | .error e => .error e
  | .ok lst =>
    let model1 := lst.foldl (fun m kv => dictInsert m kv.1 kv.2) ck.model
    let el := if strategy = 0 ∨ strategy = 3 then ck.encoder_layers * 2
              else if strategy = 1 ∨ strategy = 2 then ck.encoder_layers + Δ
              else ck.encoder_layers
    .ok { model := model1, encoder_layers := el, k := ck.k }

/-- A key of the encoder layer pattern `encoder.layers.<position>...`. -/
def isLayerKey (key : List String) : Prop :=
  key.take 2 = ["encoder", "layers"]

/-- A key of the history normalization pattern
`encoder.history.layer_norms.<slot>...`. -/
def isHistKey (key : List String) : Prop :=
  key.take 3 = ["encoder", "history", "layer_norms"]

instance (key : List String) : Decidable (isLayerKey key) := by
  unfold isLayerKey; infer_instance

instance (key : List String) : Decidable (isHistKey key) := by
  unfold isHistKey; infer_instance

/-- A key matching one of the two recognized patterns. -/
def GoodKey (key : List String) : Prop := isLayerKey key ∨ isHistKey key

/-- A history-normalization key at slot `len(k) - 1` — the one slot whose
bindings strategy 1 writes. -/
def Hist1Key (kLen : Int) (key : List String) : Prop :=
  isHistKey key ∧ key[3]? = some (toString (kLen - 1))

instance (kLen : Int) (key : List String) : Decidable (Hist1Key kLen key) := by
  unfold Hist1Key; infer_instance

/-! ## Concrete instances used by witnesses and counterexamples -/

/-- Identity normalization bank (concrete stand-in for `LayerNorm`s). -/
def normsId : Nat → ℚ → ℚ := fun _ x => x

/-- A weight matrix whose row 2 is `[0.2, 0.3, 0.5]` (the spec's history
aggregation test vector). -/
def wC2 : Nat → Nat → ℚ := fun i j =>
  if i = 2 ∧ j = 0 then 1/5
  else if i = 2 ∧ j = 1 then 3/10
  else if i = 2 ∧ j = 2 then 1/2
  else 0

/-- A concrete history state (trained weights `wC2`). -/
def s0C2 : HistoryState ℚ :=
  { layers := none, sum := none, count := 0, layer_num := 3,
    weight := wC2, normalize_before := false, layer_norms := normsId }

/-- The state reached from `s0C2` by `clean` then recording `1, 10, 100`. -/
def sC2 : HistoryState ℚ :=
  { layers := some [1, 10, 100], sum := some 1, count := 3, layer_num := 3,
    weight := wC2, normalize_before := false, layer_norms := normsId }

/-- A history state with an empty ledger. -/
def sEmpty : HistoryState ℚ :=
  { layers := some [], sum := none, count := 0, layer_num := 2,
    weight := initWeight 2, normalize_before := false, layer_norms := normsId }

/-- A history state with a one-entry ledger. -/
def sOne : HistoryState ℚ :=
  { layers := some [5], sum := some 5, count := 1, layer_num := 2,
    weight := initWeight 2, normalize_before := false, layer_norms := normsId }

/-- The 13 per-layer parameter names (`num_of_layerpara = 13`). -/
def pnames : List String :=
  ["a", "b", "c", "d", "e", "f", "g", "h", "i", "j", "k2", "l", "m"]

/-- The strategy-1 scenario snapshot: `encoder_layers = 6`, `k = [0, 6]`,
13 parameter keys for each of the positions 0..5, one history
normalization slot key at index 0. -/
def ck9 : Ckpt Nat :=
  { model := ((List.range 6).map (fun p => pnames.map
      (fun nm => (["encoder", "layers", toString p, nm],
        p * 100 + pnames.indexOf nm)))).flatten
      ++ [(["encoder", "history", "layer_norms", "0", "w"], 999)]
    encoder_layers := 6
    k := [0, 6] }

/-- The output the model produces for the scenario (`Δ = 6`): the original
entries, then position clones `p ↦ p + 6` in scan order, then the history
slot clone `0 ↦ 1`, with `encoder_layers = 12` and `k` unchanged. -/
def out9 : Ckpt Nat :=
  { model := ck9.model
      ++ ((List.range 6).map (fun p => pnames.map
        (fun nm => (["encoder", "layers", toString (p + 6), nm],
          p * 100 + pnames.indexOf nm)))).flatten
      ++ [(["encoder", "history", "layer_norms", "1", "w"], 999)]
    encoder_layers := 12
    k := [0, 6] }

/-- A minimal snapshot for the `Δ = 0` degenerate case: one history
normalization slot key at index `len(k) - 2 = 0`. -/
def ck8 : Ckpt Nat :=
  { model := [(["encoder", "history", "layer_norms", "0", "w"], 3)]
    encoder_layers := 6
    k := [0, 6] }

/-- What strategy 1 with `Δ = 0` produces from `ck8`: the slot-0 key is
still cloned to slot 1. -/
def out8 : Ckpt Nat :=
  { model := [(["encoder", "history", "layer_norms", "0", "w"], 3),
              (["encoder", "history", "layer_norms", "1", "w"], 3)]
    encoder_layers := 6
    k := [0, 6] }

/-- A snapshot with a decoder-side key, for the passthrough witness. -/
def ck7 : Ckpt Nat :=
  { model := [(["decoder", "layers", "0", "w"], 5),
              (["encoder", "history", "layer_norms", "0", "g"], 7)]
    encoder_layers := 1
    k := [0, 1] }

/-- Strategy 1 output for `ck7` with `Δ = 0`. -/
def out7 : Ckpt Nat :=
  { model := [(["decoder", "layers", "0", "w"], 5),
              (["encoder", "history", "layer_norms", "0", "g"], 7),
              (["encoder", "history", "layer_norms", "1", "g"], 7)]
    encoder_layers := 1
    k := [0, 1] }

/-! ## Lemmas about the weight initialization -/

theorem sum_ite_le_eq_min (i : Nat) :
    ∀ n : Nat, ((List.range n).map (fun j => if j ≤ i then (1 : ℚ) else 0)).sum
      = ((min (i + 1) n : Nat) : ℚ) := by
  intro n
  induction n with
  | zero => simp
  | succ n ih =>
    rw [List.range_succ, List.map_append, List.sum_append, ih]
    by_cases h : n ≤ i
    · have h1 : min (i + 1) n = n := by omega
      have h2 : min (i + 1) (n + 1) = n + 1 := by omega
      simp [h, h1, h2]
    · have h1 : min (i + 1) n = i + 1 := by omega
      have h2 : min (i + 1) (n + 1) = i + 1 := by omega
      simp [h, h1, h2]

theorem rowSumN_trilOnes (n i : Nat) (hi : i < n) :
    rowSumN n (trilOnes n) i = ((i : ℚ) + 1) := by
  unfold rowSumN
  have hmap : (List.range n).map (trilOnes n i)
      = (List.range n).map (fun j => if j ≤ i then (1 : ℚ) else 0) := by
    apply List.map_congr_left
    intro j hj
    have hjn : j < n := List.mem_range.mp hj
    unfold trilOnes
    by_cases h : j ≤ i
    · rw [if_pos ⟨hi, hjn, h⟩, if_pos h]
    · rw [if_neg (by tauto), if_neg h]
  rw [hmap, sum_ite_le_eq_min]
  have : min (i + 1) n = i + 1 := by omega
  rw [this]
  push_cast
  ring

theorem initWeight_entry_le (n i j : Nat) (hi : i < n) (hj : j < n) (h : j ≤ i) :
    initWeight n i j = 1 / ((i : ℚ) + 1) := by
  unfold initWeight
  rw [rowSumN_trilOnes n i hi]
  unfold trilOnes
  rw [if_pos ⟨hi, hj, h⟩]

theorem initWeight_entry_gt (n i j : Nat) (h : i < j) :
    initWeight n i j = 0 := by
  unfold initWeight trilOnes
  rw [if_neg (by omega), zero_div]

/-- Unfolding lemma for `pop` when the ledger attribute exists. -/
theorem pop_def {α : Type} [AddCommMonoid α] [Module ℚ α]
    (s : HistoryState α) (ld : List α) (h : s.layers = some ld) :
    s.pop = (if ld.length = 0 then none else
      some ((if s.count = 1 ∨ s.normalize_before = true
             then ((List.range s.count).map
               (fun j => s.weight (s.count - 1) j • ld.getD j 0)).sum
             else s.layer_norms (s.count - 2)
               (((List.range s.count).map
                 (fun j => s.weight (s.count - 1) j • ld.getD j 0)).sum)), s)) := by
  unfold HistoryState.pop
  rw [h]

theorem rowSumN_initWeight (n i : Nat) (hi : i < n) :
    rowSumN n (initWeight n) i = 1 := by
  unfold rowSumN
  have hmap : (List.range n).map (initWeight n i)
      = (List.range n).map (fun j => trilOnes n i j * ((i : ℚ) + 1)⁻¹) := by
    apply List.map_congr_left
    intro j _
    unfold initWeight
    rw [rowSumN_trilOnes n i hi, div_eq_mul_inv]
  rw [hmap, List.sum_map_mul_right]
  have htr : ((List.range n).map (trilOnes n i)).sum = ((i : ℚ) + 1) := by
    have := rowSumN_trilOnes n i hi
    unfold rowSumN at this
    exact this
  rw [htr, mul_inv_cancel₀]
  positivity

/-! ## Claim C4: the initial weight matrix -/

/-- C4: after construction, `weight[i, j] = 1 / (i + 1)` for `j ≤ i` and
`0` for `j > i` (inside the `n × n` matrix), and every row sums to 1. -/
theorem C4_initWeight_spec (n i j : Nat) (hi : i < n) (hj : j < n) :
    (j ≤ i → initWeight n i j = 1 / ((i : ℚ) + 1)) ∧
    (i < j → initWeight n i j = 0) ∧
    rowSumN n (initWeight n) i = 1 := by
  refine ⟨fun h => initWeight_entry_le n i j hi hj h,
          fun h => initWeight_entry_gt n i j h,
          rowSumN_initWeight n i hi⟩

/-- Witness for C4 at `n = 3`, `i = 1`, `j = 0`. -/
theorem C4_initWeight_spec_witness :
    ((0 ≤ 1 → initWeight 3 1 0 = 1 / ((1 : ℚ) + 1)) ∧
     (1 < 0 → initWeight 3 1 0 = 0) ∧
     rowSumN 3 (initWeight 3) 1 = 1) ∧
    initWeight 3 1 0 = 1 / 2 := by
  refine ⟨C4_initWeight_spec 3 1 0 (by decide) (by decide), ?_⟩
  rw [(C4_initWeight_spec 3 1 0 (by decide) (by decide)).1 (by decide)]
  norm_num

/-! ## Claim C3: identity after a single record -/

/-- C3: at initialization `weight[0,0] = 1`, and `clean` + one `record x` +
`combine` returns `x` unchanged (the history has `len(k) ≥ 1` slots). -/
theorem C3_single_record_identity {α : Type} [AddCommMonoid α] [Module ℚ α]
    (n : Nat) (hn : 1 ≤ n) (nb : Bool) (norms : Nat → α → α) (x : α) :
    initWeight n 0 0 = 1 ∧
    ∃ s1, (mkHistory n nb norms).clean.add x = some s1 ∧
      s1.pop = some (x, s1) := by
  have hw : initWeight n 0 0 = 1 := by
    rw [initWeight_entry_le n 0 0 (by omega) (by omega) (le_refl 0)]
    norm_num
  refine ⟨hw, ?_⟩
  refine ⟨{ mkHistory n nb norms with
            sum := some x, count := 1, layers := some [x] }, rfl, ?_⟩
  rw [pop_def _ [x] rfl]
  simp [mkHistory, List.range_succ]
  rw [hw, one_smul]

/-- Witness for C3 at `n = 2`, tensors in `ℚ`, `x = 7`. -/
theorem C3_single_record_identity_witness :
    initWeight 2 0 0 = 1 ∧
    ∃ s1, (mkHistory 2 false normsId).clean.add (7 : ℚ) = some s1 ∧
      s1.pop = some (7, s1) :=
  C3_single_record_identity 2 (by decide) false normsId 7

/-! ## Claim C5: the auxiliary loss -/

/-- C5: `get_loss()` returns `0.5 * mean_i((Σ_j weight[i,j] - 1)^2)` and
does not modify the state (weight matrix and ledger included). -/
theorem C5_get_loss_spec {α : Type} (s : HistoryState α) :
    s.get_loss.1 = getLossSpec s ∧ s.get_loss.2 = s := by
  constructor
  · unfold HistoryState.get_loss getLossSpec
    rw [List.sum_map_mul_left, mul_div_assoc]
  · rfl

/-! ## Claim C6: combine on an empty ledger, and its frame -/

/-- C6: `pop` on an empty ledger fails the precondition (no tensor is
returned); `pop` on a non-empty ledger returns the input state unchanged
(ledger and record count included). -/
theorem C6_pop_empty_and_frame {α : Type} [AddCommMonoid α] [Module ℚ α]
    (s : HistoryState α) :
    (s.layers = some ([] : List α) → s.pop = none) ∧
    (∀ ld : List α, s.layers = some ld → ld ≠ [] → ∃ v, s.pop = some (v, s)) := by
  constructor
  · intro h
    rw [pop_def s [] h]
    simp
  · intro ld h hne
    rw [pop_def s ld h]
    have hlen : ¬ ld.length = 0 := by
      intro h0
      exact hne (List.length_eq_zero.mp h0)
    rw [if_neg hlen]
    exact ⟨_, rfl⟩

/-- Witness for C6: a concrete empty-ledger state and a concrete
one-entry state. -/
theorem C6_pop_empty_and_frame_witness :
    sEmpty.pop = none ∧ ∃ v, sOne.pop = some (v, sOne) :=
  ⟨(C6_pop_empty_and_frame sEmpty).1 rfl,
   (C6_pop_empty_and_frame sOne).2 [5] rfl (by decide)⟩

/-! ## Claim C2: combine computes the weighted ledger sum -/

theorem addAll_ok {α : Type} (xs : List α) :
    ∀ (s : HistoryState α) (ld : List α), s.layers = some ld →
    ∃ s' ld', addAll s xs = some s' ∧ s'.layers = some ld' ∧
      s'.count = s.count + xs.length ∧ ld'.length = ld.length + xs.length ∧
      s'.layer_num = s.layer_num ∧ s'.weight = s.weight ∧
      s'.normalize_before = s.normalize_before ∧
      s'.layer_norms = s.layer_norms := by
  induction xs with
  | nil =>
    intro s ld h
    exact ⟨s, ld, rfl, h, by simp, by simp, rfl, rfl, rfl, rfl⟩
  | cons x xs ih =>
    intro s ld h
    have hstep : ∃ s1 y, s.add x = some s1 ∧
        s1.layers = some (ld ++ [y]) ∧
        s1.count = s.count + 1 ∧ s1.layer_num = s.layer_num ∧
        s1.weight = s.weight ∧ s1.normalize_before = s.normalize_before ∧
        s1.layer_norms = s.layer_norms := by
      cases hsum : s.sum with
      | none =>
        refine ⟨{ s with count := s.count + 1, sum := some x, layers := some (ld ++ [x]) }, x, ?_, rfl, rfl, rfl, rfl, rfl, rfl⟩
        simp only [HistoryState.add, hsum, h]
      | some z =>
        refine ⟨{ s with count := s.count + 1, layers := some (ld ++ [if s.normalize_before = true then s.layer_norms (s.count + 1 - 2) x else x]) }, _, ?_, rfl, rfl, rfl, rfl, rfl, rfl⟩
        simp only [HistoryState.add, hsum, h]
    obtain ⟨s1, y, hadd, hld1, hcnt1, hln1, hw1, hnb1, hlm1⟩ := hstep
    obtain ⟨s', ld', hfold, hld', hcnt', hlen', hln', hw', hnb', hlm'⟩ :=
      ih s1 _ hld1
    refine ⟨s', ld', ?_, hld', ?_, ?_, ?_, ?_, ?_, ?_⟩
    · unfold addAll at hfold ⊢
      rw [List.foldlM_cons, hadd]
      exact hfold
    · rw [hcnt', hcnt1, List.length_cons]; ring
    · rw [hlen', List.length_append, List.length_cons]; simp; ring
    · rw [hln', hln1]
    · rw [hw', hw1]
    · rw [hnb', hnb1]
    · rw [hlm', hlm1]

/-- C2: after `clean` followed by `n ≥ 1` `record` calls, `combine` returns
`Σ_{j=0}^{n-1} weight[n-1, j] * ledger[j]`, unmodified when
normalize-before mode is active or `n = 1`, and otherwise passed through
normalization slot `n - 2` — i.e. exactly `combineSpec` on the ledger —
and it leaves the state unchanged. -/
theorem C2_combine_weighted_sum {α : Type} [AddCommMonoid α] [Module ℚ α]
    (s0 : HistoryState α) (xs : List α) (hne : xs ≠ [])
    (s : HistoryState α) (hs : addAll s0.clean xs = some s)
    (ld : List α) (hld : s.layers = some ld) :
    s.pop = some (combineSpec s0.weight s0.normalize_before s0.layer_norms ld, s) := by
  obtain ⟨s', ld', hfold, hld', hcnt', hlen', hln', hw', hnb', hlm'⟩ :=
    addAll_ok xs s0.clean [] rfl
  rw [hs] at hfold
  cases hfold
  rw [hld] at hld'
  cases hld'
  have hcnt : s.count = xs.length := by
    rw [hcnt']; simp [HistoryState.clean]
  have hlen : ld.length = xs.length := by
    rw [hlen']; simp
  have hxs : xs.length ≠ 0 := by
    intro h0
    exact hne (List.length_eq_zero.mp h0)
  rw [pop_def s ld hld, if_neg (by rw [hlen]; exact hxs)]
  unfold combineSpec
  have hw : s.weight = s0.weight := hw'
  have hnb : s.normalize_before = s0.normalize_before := hnb'
  have hlm : s.layer_norms = s0.layer_norms := hlm'
  rw [hcnt, hlen, hw, hnb, hlm]
  by_cases hc : s0.normalize_before = true ∨ xs.length = 1
  · rw [if_pos hc, if_pos (Or.symm hc)]
  · rw [if_neg hc, if_neg (fun h => hc (Or.symm h))]

/-- Witness for C2: ledger `[1, 10, 100]` with row-2 weights
`[0.2, 0.3, 0.5]` combines to `53.2 = 266/5`. -/
theorem C2_combine_weighted_sum_witness :
    sC2.pop = some
      (combineSpec s0C2.weight s0C2.normalize_before s0C2.layer_norms
        [(1 : ℚ), 10, 100], sC2) ∧
    combineSpec s0C2.weight s0C2.normalize_before s0C2.layer_norms
      [(1 : ℚ), 10, 100] = 266/5 := by
  constructor
  · exact C2_combine_weighted_sum s0C2 [1, 10, 100] (by decide) sC2 rfl
      [1, 10, 100] rfl
  · unfold combineSpec s0C2 wC2 normsId
    simp [List.range_succ, smul_eq_mul]
    norm_num

/-! ## Claim C1: history event counts of a forward pass -/

theorem sum_ite_eq_length_filter (l : List Nat) (p : Nat → Bool) :
    (l.map (fun i => if p i then (1 : Nat) else 0)).sum = (l.filter p).length := by
  induction l with
  | nil => rfl
  | cons a t ih =>
    cases h : p a
    · simp [List.filter_cons, h, ih]
    · simp [List.filter_cons, h, ih, Nat.add_comm]

theorem countPops_forwardTrace (k : List Nat) (L : Nat) :
    countPops (forwardTrace k L)
      = ((List.range L).filter (fun i => decide (i ∈ k))).length + 1 := by
  unfold countPops forwardTrace
  rw [List.countP_cons, List.countP_append, List.countP_flatten, List.map_map]
  have hmap : ((List.range L).map
        ((List.countP (fun e => e == HEvent.popE)) ∘ (fun i =>
          if i ∈ k then [HEvent.popE]
          else if i + 1 ∈ k then [HEvent.addE] else [])))
      = (List.range L).map (fun i => if decide (i ∈ k) then (1 : Nat) else 0) := by
    apply List.map_congr_left
    intro i _
    by_cases h : i ∈ k
    · simp [h]
    · by_cases h2 : i + 1 ∈ k <;> simp [h, h2]
  rw [hmap, sum_ite_eq_length_filter]
  simp

theorem countAdds_forwardTrace (k : List Nat) (L : Nat) :
    countAdds (forwardTrace k L)
      = ((List.range L).filter
          (fun i => decide (¬ i ∈ k ∧ i + 1 ∈ k))).length + 1 := by
  unfold countAdds forwardTrace
  rw [List.countP_cons, List.countP_append, List.countP_flatten, List.map_map]
  have hmap : ((List.range L).map
        ((List.countP (fun e => e == HEvent.addE)) ∘ (fun i =>
          if i ∈ k then [HEvent.popE]
          else if i + 1 ∈ k then [HEvent.addE] else [])))
      = (List.range L).map
          (fun i => if decide (¬ i ∈ k ∧ i + 1 ∈ k) then (1 : Nat) else 0) := by
    apply List.map_congr_left
    intro i _
    by_cases h : i ∈ k
    · simp [h]
    · by_cases h2 : i + 1 ∈ k <;> simp [h, h2]
  rw [hmap, sum_ite_eq_length_filter]
  simp [Nat.add_comm]

theorem le_getLast_of_chain :
    ∀ (k : List Nat), List.Chain' (· < ·) k →
      ∀ L, k.getLast? = some L → ∀ x ∈ k, x ≤ L := by
  intro k
  induction k with
  | nil => intro _ L hL; simp at hL
  | cons a t ih =>
    intro hc L hL x hx
    cases t with
    | nil =>
      simp at hL hx
      omega
    | cons b t' =>
      have hab : a < b := (List.chain'_cons.mp hc).1
      have hct : List.Chain' (· < ·) (b :: t') := (List.chain'_cons.mp hc).2
      have hL' : (b :: t').getLast? = some L := by
        rw [← hL]; exact (List.getLast?_cons_cons ..).symm
      rcases List.mem_cons.mp hx with rfl | hx'
      · have hbL : b ≤ L := ih hct L hL' b (List.mem_cons_self b t')
        omega
      · exact ih hct L hL' x hx'

theorem filter_lt_eq_dropLast :
    ∀ (k : List Nat), List.Chain' (· < ·) k →
      ∀ L, k.getLast? = some L →
        k.filter (fun m => decide (m < L)) = k.dropLast := by
  intro k
  induction k with
  | nil => intro _ L _; rfl
  | cons a t ih =>
    intro hc L hL
    cases t with
    | nil =>
      simp at hL
      subst hL
      simp
    | cons b t' =>
      have hab : a < b := (List.chain'_cons.mp hc).1
      have hct : List.Chain' (· < ·) (b :: t') := (List.chain'_cons.mp hc).2
      have hL' : (b :: t').getLast? = some L := by
        rw [← hL]; exact (List.getLast?_cons_cons ..).symm
      have hbL : b ≤ L := le_getLast_of_chain _ hct L hL' b (List.mem_cons_self b t')
      have haL : a < L := by omega
      rw [List.filter_cons, if_pos (by simpa using haL), ih hct L hL',
        List.dropLast_cons₂]

theorem length_filter_range_mem (L : Nat) (k : List Nat) (hnd : k.Nodup) :
    ((List.range L).filter (fun i => decide (i ∈ k))).length
      = (k.filter (fun m => decide (m < L))).length := by
  have h1 : ((List.range L).filter (fun i => decide (i ∈ k))).Nodup :=
    (List.nodup_range L).filter _
  have h2 : (k.filter (fun m => decide (m < L))).Nodup := hnd.filter _
  rw [← List.toFinset_card_of_nodup h1, ← List.toFinset_card_of_nodup h2]
  congr 1
  ext x
  simp only [List.mem_toFinset, List.mem_filter, List.mem_range,
    decide_eq_true_eq]
  exact and_comm

theorem pairwise_gap_no_adjacent {k : List Nat}
    (h : List.Pairwise (fun a b => a + 1 < b) k) :
    ∀ x, x ∈ k → x + 1 ∈ k → False := by
  induction k with
  | nil => simp
  | cons a t ih =>
    intro x hx hx1
    rcases List.pairwise_cons.mp h with ⟨ha, ht⟩
    rcases List.mem_cons.mp hx with rfl | hx
    · rcases List.mem_cons.mp hx1 with he | hx1
      · omega
      · have := ha _ hx1; omega
    · rcases List.mem_cons.mp hx1 with he | hx1
      · have := ha _ hx; omega
      · exact ih ht x hx hx1

theorem length_filter_range_succ_mem (L : Nat) (k : List Nat) (hnd : k.Nodup)
    (hgap : List.Pairwise (fun a b => a + 1 < b) k)
    (hle : ∀ x ∈ k, x ≤ L) :
    ((List.range L).filter (fun i => decide (¬ i ∈ k ∧ i + 1 ∈ k))).length
      = (k.filter (fun m => decide (¬ m = 0))).length := by
  have h1 : ((List.range L).filter
      (fun i => decide (¬ i ∈ k ∧ i + 1 ∈ k))).Nodup :=
    (List.nodup_range L).filter _
  have h2 : (k.filter (fun m => decide (¬ m = 0))).Nodup := hnd.filter _
  rw [← List.toFinset_card_of_nodup h1, ← List.toFinset_card_of_nodup h2]
  have himg : ((List.range L).filter
        (fun i => decide (¬ i ∈ k ∧ i + 1 ∈ k))).toFinset.image
        (fun i => i + 1)
      = (k.filter (fun m => decide (¬ m = 0))).toFinset := by
    ext x
    simp only [Finset.mem_image, List.mem_toFinset, List.mem_filter,
      List.mem_range, decide_eq_true_eq]
    constructor
    · rintro ⟨i, ⟨_, ⟨_, hmem⟩⟩, rfl⟩
      exact ⟨hmem, by omega⟩
    · rintro ⟨hx, hx0⟩
      have hx1 : 1 ≤ x := by omega
      refine ⟨x - 1, ⟨?_, ?_, ?_⟩, by omega⟩
      · have := hle x hx; omega
      · intro hmem'
        have : (x - 1) + 1 = x := by omega
        exact pairwise_gap_no_adjacent hgap (x - 1) hmem' (by rw [this]; exact hx)
      · have : (x - 1) + 1 = x := by omega
        rw [this]; exact hx
  rw [← himg, Finset.card_image_of_injective _ (fun a b h => by omega)]

theorem filter_ne_zero_eq_tail (k : List Nat)
    (hc : List.Chain' (· < ·) k) (hh : k.head? = some 0) :
    k.filter (fun m => decide (¬ m = 0)) = k.tail := by
  cases k with
  | nil => simp at hh
  | cons a t =>
    have ha : a = 0 := by simpa using hh
    subst ha
    have hpos : ∀ m ∈ t, 0 < m := by
      intro m hm
      have hp : List.Pairwise (· < ·) (0 :: t) := by
        letI : IsTrans Nat (· < ·) := ⟨fun _ _ _ => Nat.lt_trans⟩
        exact List.chain'_iff_pairwise.mp hc
      exact (List.pairwise_cons.mp hp).1 m hm
    rw [List.filter_cons]
    have h0 : (decide (¬ (0 : Nat) = 0)) = false := by decide
    rw [h0]
    simp only [Bool.false_eq_true, if_false]
    rw [List.tail_cons, List.filter_eq_self.mpr]
    intro m hm
    have := hpos m hm
    simp only [decide_eq_true_eq]
    omega

/-- C1 (amended): with history configured and `k` strictly increasing,
`k[0] = 0`, `k[-1] = L`, a forward pass performs exactly `len(k)` combine
(`pop`) events — `len(k) - 1` in the loop plus the final one — for every
such `k`; it performs exactly `len(k)` record (`add`) events when `k` has
no two consecutive positions (checkpoint spacing ≥ 2).  With adjacent
checkpoints the record after a checkpoint-triggered layer is skipped, so
fewer than `len(k)` records occur (see the counterexample). -/
theorem C1_forward_event_counts (k : List Nat) (L : Nat)
    (hsort : List.Chain' (· < ·) k) (hhead : k.head? = some 0)
    (hlast : k.getLast? = some L) :
    countPops (forwardTrace k L) = k.length ∧
    (List.Chain' (fun a b => a + 1 < b) k →
      countAdds (forwardTrace k L) = k.length) := by
  have hne : k ≠ [] := by
    intro h; rw [h] at hhead; simp at hhead
  have hpw : List.Pairwise (· < ·) k := by
    letI : IsTrans Nat (· < ·) := ⟨fun _ _ _ => Nat.lt_trans⟩
    exact List.chain'_iff_pairwise.mp hsort
  have hnd : k.Nodup := hpw.imp Nat.ne_of_lt
  constructor
  · rw [countPops_forwardTrace, length_filter_range_mem L k hnd,
      filter_lt_eq_dropLast k hsort L hlast, List.length_dropLast]
    have : 1 ≤ k.length := List.length_pos.mpr hne
    omega
  · intro hgapc
    have hgap : List.Pairwise (fun a b => a + 1 < b) k := by
      letI : IsTrans Nat (fun a b : Nat => a + 1 < b) :=
        ⟨fun _ _ _ h1 h2 => by omega⟩
      exact List.chain'_iff_pairwise.mp hgapc
    have hle : ∀ x ∈ k, x ≤ L := le_getLast_of_chain k hsort L hlast
    rw [countAdds_forwardTrace,
      length_filter_range_succ_mem L k hnd hgap hle,
      filter_ne_zero_eq_tail k hsort hhead, List.length_tail]
    have : 1 ≤ k.length := List.length_pos.mpr hne
    omega

/-- Witness for C1 at `k = [0, 2]`, `L = 2`: two pops and two adds. -/
theorem C1_forward_event_counts_witness :
    countPops (forwardTrace [0, 2] 2) = 2 ∧
    countAdds (forwardTrace [0, 2] 2) = 2 :=
  ⟨(C1_forward_event_counts [0, 2] 2 (by simp [List.chain'_cons]) (by decide)
      (by decide)).1,
   (C1_forward_event_counts [0, 2] 2 (by simp [List.chain'_cons]) (by decide)
      (by decide)).2 (by simp [List.chain'_cons])⟩

/-- Counterexample to C1 as stated: `k = [0, 1]` (adjacent checkpoints,
`L = 1`) satisfies all the claim's conditions, yet the pass performs only
1 record event, not `len(k) = 2`. -/
theorem C1_counterexample :
    List.Chain' (· < ·) [0, 1] ∧ ([0, 1] : List Nat).head? = some 0 ∧
    ([0, 1] : List Nat).getLast? = some 1 ∧
    countAdds (forwardTrace [0, 1] 1) = 1 ∧
    ([0, 1] : List Nat).length = 2 := by
  refine ⟨by simp [List.chain'_cons], by decide, by decide, by decide, by decide⟩

/-! ## Lemmas about the expansion utility -/

theorem layerTest_ok_some {cond : Int → Bool} {ks : List String} {n : Int}
    (h : layerTest cond ks = .ok (some n)) :
    ∃ p rest, ks = "encoder" :: "layers" :: p :: rest ∧
      pyInt p = some n ∧ cond n = true := by
  unfold layerTest at h
  split at h
  · exact absurd h (by simp)
  next c0 rest0 =>
    split at h
    · split at h
      · exact absurd h (by simp)
      next c1 rest1 =>
        split at h
        · split at h
          · exact absurd h (by simp)
          next c2 rest2 =>
            split at h
            · exact absurd h (by simp)
            next m hp =>
              split at h
              next hc =>
                simp only [Except.ok.injEq, Option.some.injEq] at h
                subst h
                subst_vars
                exact ⟨c2, rest2, rfl, hp, hc⟩
              · exact absurd h (by simp)
        · exact absurd h (by simp)
    · exact absurd h (by simp)

theorem histTest_ok_some {cond : Int → Bool} {ks : List String} {n : Int}
    (h : histTest cond ks = .ok (some n)) :
    ∃ p rest, ks = "encoder" :: "history" :: "layer_norms" :: p :: rest ∧
      pyInt p = some n ∧ cond n = true := by
  unfold histTest at h
  split at h
  · exact absurd h (by simp)
  next c0 rest0 =>
    split at h
    · split at h
      · exact absurd h (by simp)
      next c1 rest1 =>
        split at h
        · split at h
          · exact absurd h (by simp)
          next c2 rest2 =>
            split at h
            · split at h
              · exact absurd h (by simp)
              next c3 rest3 =>
                split at h
                · exact absurd h (by simp)
                next m hp =>
                  split at h
                  next hc =>
                    simp only [Except.ok.injEq, Option.some.injEq] at h
                    subst h
                    subst_vars
                    exact ⟨c3, rest3, rfl, hp, hc⟩
                  · exact absurd h (by simp)
            · exact absurd h (by simp)
        · exact absurd h (by simp)
    · exact absurd h (by simp)

theorem isLayerKey_set2 (p s : String) (rest : List String) :
    isLayerKey (("encoder" :: "layers" :: p :: rest).set 2 s) := by
  simp [isLayerKey, List.set]

theorem isHistKey_set3 (p s : String) (rest : List String) :
    isHistKey (("encoder" :: "history" :: "layer_norms" :: p :: rest).set 3 s) := by
  simp [isHistKey, List.set]

theorem go0_good {V : Type} (L : Int) :
    ∀ (items lst out : List (List String × V)),
      (∀ kv ∈ lst, GoodKey kv.1) →
      go0 L items lst = .ok out →
      ∀ kv ∈ out, GoodKey kv.1 := by
  intro items
  induction items with
  | nil =>
    intro lst out hl h
    simp only [go0] at h
    cases h
    exact hl
  | cons it items ih =>
    obtain ⟨ks, v⟩ := it
    intro lst out hl h
    simp only [go0] at h
    cases hL : layerTest (fun _ => true) ks with
    | error e => rw [hL] at h; simp at h
    | ok r =>
      rw [hL] at h
      cases hH : histTest (fun _ => true) ks with
      | error e => rw [hH] at h; simp at h
      | ok hr =>
        rw [hH] at h
        cases r with
        | none =>
          cases hr with
          | none =>
            refine ih _ out ?_ h
            intro kv hkv
            rcases List.mem_append.mp hkv with hkv | hkv
            · rcases List.mem_append.mp hkv with hkv | hkv
              · exact hl kv hkv
              · simp at hkv
            · simp at hkv
          | some sid =>
            obtain ⟨p, rest, hks, hp, hc⟩ := histTest_ok_some hH
            subst hks
            refine ih _ out ?_ h
            intro kv hkv
            rcases List.mem_append.mp hkv with hkv | hkv
            · rcases List.mem_append.mp hkv with hkv | hkv
              · exact hl kv hkv
              · simp at hkv
            · simp at hkv
              subst hkv
              exact Or.inr (isHistKey_set3 p _ rest)
        | some n =>
          obtain ⟨p, rest, hks, hp, hc⟩ := layerTest_ok_some hL
          subst hks
          cases hr with
          | none =>
            refine ih _ out ?_ h
            intro kv hkv
            rcases List.mem_append.mp hkv with hkv | hkv
            · rcases List.mem_append.mp hkv with hkv | hkv
              · exact hl kv hkv
              · simp at hkv
                subst hkv
                exact Or.inl (isLayerKey_set2 p _ rest)
            · simp at hkv
          | some sid =>
            obtain ⟨p2, rest2, hks2, hp2, hc2⟩ := histTest_ok_some hH
            simp at hks2

theorem go1_good {V : Type} (L Δ kLen : Int) :
    ∀ (items : List (List String × V)) (c : Int) (m : Nat)
      (lst out : List (List String × V)),
      (∀ kv ∈ lst, GoodKey kv.1) →
      go1 L Δ kLen items c m lst = .ok out →
      ∀ kv ∈ out, GoodKey kv.1 := by
  intro items
  induction items with
  | nil =>
    intro c m lst out hl h
    simp only [go1] at h
    cases h
    exact hl
  | cons it items ih =>
    obtain ⟨ks, v⟩ := it
    intro c m lst out hl h
    simp only [go1] at h
    cases hL : layerTest (fun n => n = L - c) ks with
    | error e => rw [hL] at h; simp at h
    | ok r =>
      rw [hL] at h
      cases r with
      | none =>
        cases hH : histTest (fun sid => sid = kLen - 2) ks with
        | error e => rw [hH] at h; simp at h
        | ok hr =>
          rw [hH] at h
          cases hr with
          | none => exact ih c m lst out hl h
          | some sid =>
            obtain ⟨p, rest, hks, hp, hc⟩ := histTest_ok_some hH
            subst hks
            refine ih c m _ out ?_ h
            intro kv hkv
            rcases List.mem_append.mp hkv with hkv | hkv
            · exact hl kv hkv
            · simp at hkv
              subst hkv
              exact Or.inr (isHistKey_set3 p _ rest)
      | some n =>
        obtain ⟨p, rest, hks, hp, hc⟩ := layerTest_ok_some hL
        subst hks
        cases hH : histTest (fun sid => sid = kLen - 2)
            ("encoder" :: "layers" :: p :: rest) with
        | error e => rw [hH] at h; simp at h
        | ok hr =>
          rw [hH] at h
          cases hr with
          | none =>
            refine ih _ _ _ out ?_ h
            intro kv hkv
            rcases List.mem_append.mp hkv with hkv | hkv
            · exact hl kv hkv
            · simp at hkv
              subst hkv
              exact Or.inl (isLayerKey_set2 p _ rest)
          | some sid =>
            obtain ⟨p2, rest2, hks2, hp2, hc2⟩ := histTest_ok_some hH
            simp at hks2

theorem go2_good {V : Type} (L Δ kLen : Int) :
    ∀ (items lst out : List (List String × V)),
      (∀ kv ∈ lst, GoodKey kv.1) →
      go2 L Δ kLen items lst = .ok out →
      ∀ kv ∈ out, GoodKey kv.1 := by
  intro items
  induction items with
  | nil =>
    intro lst out hl h
    simp only [go2] at h
    cases h
    exact hl
  | cons it items ih =>
    obtain ⟨ks, v⟩ := it
    intro lst out hl h
    simp only [go2] at h
    cases hL : layerTest (fun n => n = L - 1) ks with
    | error e => rw [hL] at h; simp at h
    | ok r =>
      rw [hL] at h
      cases hH : histTest (fun sid => sid = kLen - 2) ks with
      | error e => rw [hH] at h; simp at h
      | ok hr =>
        rw [hH] at h
        cases r with
        | none =>
          cases hr with
          | none =>
            refine ih _ out ?_ h
            intro kv hkv
            rcases List.mem_append.mp hkv with hkv | hkv
            · rcases List.mem_append.mp hkv with hkv | hkv
              · exact hl kv hkv
              · simp at hkv
            · simp at hkv
          | some sid =>
            obtain ⟨p, rest, hks, hp, hc⟩ := histTest_ok_some hH
            subst hks
            refine ih _ out ?_ h
            intro kv hkv
            rcases List.mem_append.mp hkv with hkv | hkv
            · rcases List.mem_append.mp hkv with hkv | hkv
              · exact hl kv hkv
              · simp at hkv
            · simp at hkv
              subst hkv
              exact Or.inr (isHistKey_set3 p _ rest)
        | some n =>
          obtain ⟨p, rest, hks, hp, hc⟩ := layerTest_ok_some hL
          subst hks
          cases hr with
          | none =>
            refine ih _ out ?_ h
            intro kv hkv
            rcases List.mem_append.mp hkv with hkv | hkv
            · rcases List.mem_append.mp hkv with hkv | hkv
              · exact hl kv hkv
              · simp only [List.mem_map, List.mem_range] at hkv
                obtain ⟨i, _, hkv⟩ := hkv
                subst hkv
                exact Or.inl (isLayerKey_set2 p _ rest)
            · simp at hkv
          | some sid =>
            obtain ⟨p2, rest2, hks2, hp2, hc2⟩ := histTest_ok_some hH
            simp at hks2

theorem go3_good {V : Type} :
    ∀ (items : List (List String × V)) (layer : Int) (cnt : Nat)
      (lst out : List (List String × V)),
      (∀ kv ∈ lst, GoodKey kv.1) →
      go3 items layer cnt lst = .ok out →
      ∀ kv ∈ out, GoodKey kv.1 := by
  intro items
  induction items with
  | nil =>
    intro layer cnt lst out hl h
    simp only [go3] at h
    cases h
    exact hl
  | cons it items ih =>
    obtain ⟨ks, v⟩ := it
    intro layer cnt lst out hl h
    simp only [go3] at h
    cases hL : layerTest (fun _ => true) ks with
    | error e => rw [hL] at h; simp at h
    | ok r =>
      rw [hL] at h
      cases r with
      | none => exact ih layer cnt lst out hl h
      | some n =>
        obtain ⟨p, rest, hks, hp, hc⟩ := layerTest_ok_some hL
        subst hks
        refine ih _ _ _ out ?_ h
        intro kv hkv
        rcases List.mem_append.mp hkv with hkv | hkv
        · exact hl kv hkv
        · simp at hkv
          rcases hkv with hkv | hkv
          · subst hkv
            exact Or.inl (isLayerKey_set2 p _ rest)
          · subst hkv
            exact Or.inl (isLayerKey_set2 p _ rest)

theorem lookup_dictInsert_ne {V : Type} (m : List (List String × V))
    (k1 key : List String) (v : V) (h : k1 ≠ key) :
    lookup (dictInsert m k1 v) key = lookup m key := by
  induction m with
  | nil =>
    simp [dictInsert, lookup, List.find?, h]
  | cons p rest ih =>
    by_cases hp : p.1 = k1
    · rw [dictInsert, if_pos hp]
      unfold lookup
      rw [List.find?_cons, List.find?_cons]
      have h1 : (decide (k1 = key)) = false := by simp [h]
      have h2 : (decide (p.1 = key)) = false := by simp [hp ▸ h]
      rw [h1, h2]
    · rw [dictInsert, if_neg hp]
      unfold lookup
      rw [List.find?_cons, List.find?_cons]
      cases hd : decide (p.1 = key) with
      | true => rfl
      | false => exact ih

theorem lookup_dictInsert_self {V : Type} (m : List (List String × V))
    (k1 : List String) (v : V) :
    lookup (dictInsert m k1 v) k1 = some v := by
  induction m with
  | nil => simp [dictInsert, lookup, List.find?]
  | cons p rest ih =>
    by_cases hp : p.1 = k1
    · rw [dictInsert, if_pos hp]
      unfold lookup
      rw [List.find?_cons]
      simp
    · rw [dictInsert, if_neg hp]
      unfold lookup
      rw [List.find?_cons]
      have h2 : (decide (p.1 = k1)) = false := by simp [hp]
      rw [h2]
      exact ih

theorem lookup_foldl_insert_of_ne {V : Type}
    (lst : List (List String × V)) :
    ∀ (m : List (List String × V)) (key : List String),
      (∀ kv ∈ lst, kv.1 ≠ key) →
      lookup (lst.foldl (fun m kv => dictInsert m kv.1 kv.2) m) key
        = lookup m key := by
  induction lst with
  | nil => intro m key _; rfl
  | cons kv lst ih =>
    intro m key hne
    rw [List.foldl_cons, ih _ key (fun kv2 h2 => hne kv2 (List.mem_cons_of_mem kv h2)),
      lookup_dictInsert_ne m kv.1 key kv.2 (hne kv (List.mem_cons_self kv lst))]

/-! ## Claim C7: passthrough of unrelated keys -/

/-- C7: for every strategy (in particular 0..3) and every run of the
utility that produces an output snapshot, every key matching neither the
`encoder.layers.<position>...` pattern nor the
`encoder.history.layer_norms.<slot>...` pattern has the same binding in
the output model as in the input model (decoder-side state passes
through untouched). -/
theorem C7_passthrough {V : Type} (strategy : Nat) (Δ : Int) (ck : Ckpt V)
    (out : Ckpt V) (h : mainModel strategy Δ ck = .ok out)
    (key : List String) (hL : ¬ isLayerKey key) (hH : ¬ isHistKey key) :
    lookup out.model key = lookup ck.model key := by
  have hins : ∀ (lst : List (List String × V)),
      (∀ kv ∈ lst, GoodKey kv.1) →
      lookup (lst.foldl (fun m kv => dictInsert m kv.1 kv.2) ck.model) key
        = lookup ck.model key := by
    intro lst hg
    refine lookup_foldl_insert_of_ne lst ck.model key ?_
    intro kv hkv hk
    rcases hg kv hkv with hgood | hgood
    · exact hL (hk ▸ hgood)
    · exact hH (hk ▸ hgood)
  simp only [mainModel] at h
  by_cases h0 : strategy = 0
  · rw [if_pos h0] at h
    cases hgo : go0 (V := V) ck.encoder_layers ck.model [] with
    | error e => rw [hgo] at h; simp at h
    | ok lst =>
      rw [hgo] at h
      simp only [Except.ok.injEq] at h
      subst h
      exact hins lst (go0_good ck.encoder_layers ck.model [] lst (by simp) hgo)
  · rw [if_neg h0] at h
    by_cases h1 : strategy = 1
    · rw [if_pos h1] at h
      cases hgo : go1 (V := V) ck.encoder_layers Δ (ck.k.length : Int)
          ck.model Δ 0 [] with
      | error e => rw [hgo] at h; simp at h
      | ok lst =>
        rw [hgo] at h
        simp only [Except.ok.injEq] at h
        subst h
        exact hins lst (go1_good ck.encoder_layers Δ (ck.k.length : Int)
          ck.model Δ 0 [] lst (by simp) hgo)
    · rw [if_neg h1] at h
      by_cases h2 : strategy = 2
      · rw [if_pos h2] at h
        cases hgo : go2 (V := V) ck.encoder_layers Δ (ck.k.length : Int)
            ck.model [] with
        | error e => rw [hgo] at h; simp at h
        | ok lst =>
          rw [hgo] at h
          simp only [Except.ok.injEq] at h
          subst h
          exact hins lst (go2_good ck.encoder_layers Δ (ck.k.length : Int)
            ck.model [] lst (by simp) hgo)
      · rw [if_neg h2] at h
        by_cases h3 : strategy = 3
        · rw [if_pos h3] at h
          cases hgo : go3 (V := V) ck.model 0 0 [] with
          | error e => rw [hgo] at h; simp at h
          | ok lst =>
            rw [hgo] at h
            simp only [Except.ok.injEq] at h
            subst h
            exact hins lst (go3_good ck.model 0 0 [] lst (by simp) hgo)
        · rw [if_neg h3] at h
          simp only [Except.ok.injEq] at h
          subst h
          exact hins [] (by simp)

/-- Witness for C7: strategy 1 on `ck7` (which carries a decoder key)
leaves the decoder key's binding unchanged. -/
theorem C7_passthrough_witness :
    lookup out7.model ["decoder", "layers", "0", "w"]
      = lookup ck7.model ["decoder", "layers", "0", "w"] :=
  C7_passthrough 1 0 ck7 out7 rfl ["decoder", "layers", "0", "w"]
    (by simp [isLayerKey]) (by simp [isHistKey])

/-! ## Claims C8 and C9: the Δ = 0 degenerate case and the strategy-1
scenario -/

theorem lookup_eq_of_mem_nodup {V : Type} (m : List (List String × V))
    (hnd : (m.map Prod.fst).Nodup) (k : List String) (v : V)
    (hmem : (k, v) ∈ m) : lookup m k = some v := by
  induction m with
  | nil => simp at hmem
  | cons p rest ih =>
    rcases List.mem_cons.mp hmem with rfl | hmem2
    · unfold lookup
      rw [List.find?_cons]
      simp
    · have hnd2 : (rest.map Prod.fst).Nodup := (List.nodup_cons.mp hnd).2
      have hne : p.1 ≠ k := by
        intro he
        have hk : k ∈ rest.map Prod.fst := List.mem_map_of_mem Prod.fst hmem2
        exact (List.nodup_cons.mp hnd).1 (he ▸ hk)
      unfold lookup
      rw [List.find?_cons]
      have hd : (decide (p.1 = k)) = false := by simp [hne]
      rw [hd]
      exact ih hnd2 hmem2

theorem go1_delta0_inv {V : Type} (L kLen : Int)
    (base : List (List String × V))
    (hcanon : ∀ (p : String) (rest : List String) (v : V) (n : Int),
      ("encoder" :: "layers" :: p :: rest, v) ∈ base →
      pyInt p = some n → toString n = p) :
    ∀ (items : List (List String × V)) (c : Int) (m : Nat)
      (lst out : List (List String × V)),
      (∀ kv ∈ items, kv ∈ base) →
      (∀ kv ∈ lst, kv ∈ base ∨ Hist1Key kLen kv.1) →
      go1 L 0 kLen items c m lst = .ok out →
      ∀ kv ∈ out, kv ∈ base ∨ Hist1Key kLen kv.1 := by
  intro items
  induction items with
  | nil =>
    intro c m lst out _ hl h
    simp only [go1] at h
    cases h
    exact hl
  | cons it items ih =>
    obtain ⟨ks, v⟩ := it
    intro c m lst out hsub hl h
    have hsub2 : ∀ kv ∈ items, kv ∈ base :=
      fun kv hkv => hsub kv (List.mem_cons_of_mem _ hkv)
    have hksmem : (ks, v) ∈ base := hsub (ks, v) (List.mem_cons_self _ _)
    simp only [go1] at h
    cases hL : layerTest (fun n => n = L - c) ks with
    | error e => rw [hL] at h; simp at h
    | ok r =>
      rw [hL] at h
      cases r with
      | none =>
        cases hH : histTest (fun sid => sid = kLen - 2) ks with
        | error e => rw [hH] at h; simp at h
        | ok hr =>
          rw [hH] at h
          cases hr with
          | none => exact ih c m lst out hsub2 hl h
          | some sid =>
            obtain ⟨p, rest, hks, hp, hc⟩ := histTest_ok_some hH
            subst hks
            refine ih c m _ out hsub2 ?_ h
            intro kv hkv
            rcases List.mem_append.mp hkv with hkv | hkv
            · exact hl kv hkv
            · simp at hkv
              subst hkv
              right
              constructor
              · exact isHistKey_set3 p _ rest
              · have hsid : sid = kLen - 2 := by
                  have := of_decide_eq_true hc
                  exact this
                have h21 : sid + 1 = kLen - 1 := by omega
                simp [List.set, h21]
      | some n =>
        obtain ⟨p, rest, hks, hp, hc⟩ := layerTest_ok_some hL
        subst hks
        have hclone : ("encoder" :: "layers" :: p :: rest).set 2
            (toString (n + 0)) = "encoder" :: "layers" :: p :: rest := by
          have h0 : n + (0 : Int) = n := Int.add_zero n
          rw [h0, hcanon p rest v n hksmem hp]
          simp [List.set]
        cases hH : histTest (fun sid => sid = kLen - 2)
            ("encoder" :: "layers" :: p :: rest) with
        | error e => rw [hH] at h; simp at h
        | ok hr =>
          rw [hH] at h
          cases hr with
          | none =>
            refine ih _ _ _ out hsub2 ?_ h
            intro kv hkv
            rcases List.mem_append.mp hkv with hkv | hkv
            · exact hl kv hkv
            · simp only [List.mem_singleton] at hkv
              subst hkv
              rw [hclone]
              exact Or.inl hksmem
          | some sid =>
            obtain ⟨p2, rest2, hks2, hp2, hc2⟩ := histTest_ok_some hH
            simp at hks2

theorem lookup_foldl_insert_inv {V : Type} (kLen : Int)
    (base : List (List String × V)) (hnd : (base.map Prod.fst).Nodup) :
    ∀ (lst m : List (List String × V)),
      (∀ kv ∈ lst, kv ∈ base ∨ Hist1Key kLen kv.1) →
      (∀ key, ¬ Hist1Key kLen key → lookup m key = lookup base key) →
      ∀ key, ¬ Hist1Key kLen key →
        lookup (lst.foldl (fun m kv => dictInsert m kv.1 kv.2) m) key
          = lookup base key := by
  intro lst
  induction lst with
  | nil => intro m _ hm key hk; exact hm key hk
  | cons kv lst ih =>
    intro m hg hm key hk
    rw [List.foldl_cons]
    refine ih _ (fun kv2 h2 => hg kv2 (List.mem_cons_of_mem kv h2)) ?_ key hk
    intro key2 hk2
    by_cases he : kv.1 = key2
    · rcases hg kv (List.mem_cons_self kv lst) with hb | hh
      · rw [← he, lookup_dictInsert_self]
        obtain ⟨k1, v1⟩ := kv
        exact (lookup_eq_of_mem_nodup base hnd k1 v1 hb).symm
      · exact absurd (he ▸ hh) hk2
    · rw [lookup_dictInsert_ne m kv.1 key2 kv.2 he]
      exact hm key2 hk2

/-- C8 (amended): running strategy 1 with `Δ = 0` is accepted (not
rejected) and leaves `encoder_layers`, `k`, and the binding of every key
other than the history-normalization keys at slot `len(k) - 1` unchanged
(positions are canonical decimal numerals and model keys are unique, as in
a real snapshot); it is not a full no-op: the history slot `len(k) - 2`
keys are still cloned to slot `len(k) - 1` (see the counterexample). -/
theorem C8_delta_zero {V : Type} (ck out : Ckpt V)
    (hnd : (ck.model.map Prod.fst).Nodup)
    (hcanon : ∀ (p : String) (rest : List String) (v : V) (n : Int),
      ("encoder" :: "layers" :: p :: rest, v) ∈ ck.model →
      pyInt p = some n → toString n = p)
    (h : mainModel 1 0 ck = .ok out) :
    out.encoder_layers = ck.encoder_layers ∧ out.k = ck.k ∧
    ∀ key, ¬ Hist1Key (ck.k.length : Int) key →
      lookup out.model key = lookup ck.model key := by
  simp only [mainModel] at h
  norm_num at h
  cases hgo : go1 (V := V) ck.encoder_layers 0 (ck.k.length : Int)
      ck.model 0 0 [] with
  | error e => rw [hgo] at h; simp at h
  | ok lst =>
    rw [hgo] at h
    simp only [Except.ok.injEq] at h
    subst h
    refine ⟨by norm_num, rfl, ?_⟩
    intro key hk
    have hgood : ∀ kv ∈ lst, kv ∈ ck.model ∨
        Hist1Key (ck.k.length : Int) kv.1 :=
      go1_delta0_inv ck.encoder_layers (ck.k.length : Int) ck.model hcanon
        ck.model 0 0 [] lst (fun kv hkv => hkv) (by simp) hgo
    exact lookup_foldl_insert_inv (ck.k.length : Int) ck.model hnd lst
      ck.model hgood (fun key2 _ => rfl) key hk

/-- Witness for C8 (amended) on the concrete snapshot `ck8`. -/
theorem C8_delta_zero_witness :
    out8.encoder_layers = ck8.encoder_layers ∧ out8.k = ck8.k ∧
    ∀ key, ¬ Hist1Key ((ck8.k.length : Int)) key →
      lookup out8.model key = lookup ck8.model key :=
  C8_delta_zero ck8 out8 (by decide)
    (by intro p rest v n hmem hp; simp [ck8] at hmem) rfl

/-- Counterexample to C8 as stated: with `Δ = 0` on `ck8` the run is not
rejected (it succeeds), yet the output key set is not the input key set:
the history slot-0 key has been cloned to a new slot-1 key. -/
theorem C8_counterexample :
    mainModel 1 0 ck8 = Except.ok out8 ∧
    out8.model.map Prod.fst ≠ ck8.model.map Prod.fst :=
  ⟨rfl, by decide⟩

set_option maxRecDepth 40000 in
/-- C9 (amended): the strategy-1 scenario — `encoder_layers = 6`,
`k = [0, 6]`, 13 parameter keys per position 0..5, one history slot key at
index 0, `Δ = 6` — produces exactly `out9`: positions 0..5 cloned in scan
order to 6..11 (each with its 13 parameters), exactly one new history
normalization slot at index `len(k) - 1 = 1`, `encoder_layers = 12`, and
`k` unchanged at `[0, 6]` (the expander never rewrites `k`). -/
theorem C9_strategy1_scenario :
    mainModel 1 6 ck9 = Except.ok out9 ∧
    out9.encoder_layers = 12 ∧
    out9.k = [0, 6] ∧
    (∀ p ∈ List.range 12,
      (lookup out9.model ["encoder", "layers", toString p, "a"]).isSome = true) ∧
    ((out9.model.map Prod.fst).filter (fun key => decide (isHistKey key))).length = 2 ∧
    (out9.model.map Prod.fst).count ["encoder", "history", "layer_norms", "1", "w"] = 1 := by
  refine ⟨by rfl, rfl, rfl, by decide, by decide, by decide⟩

set_option maxRecDepth 40000 in
/-- Counterexample to C9 as stated: on the scenario snapshot the output's
checkpoint list is still `[0, 6]`, not the claimed `[0, 6, 12]` — the
utility never updates `args.k`. -/
theorem C9_counterexample :
    mainModel 1 6 ck9 = Except.ok out9 ∧ out9.k = [0, 6] ∧
    ([0, 6] : List Int) ≠ [0, 6, 12] :=
  ⟨by rfl, rfl, by decide⟩

/-! ## Claim C10: record before the first reset -/

/-- C10: the constructor does not create the ledger; `add` before the
first `clean` fails with an attribute error, while `add` after `clean`
succeeds. -/
theorem C10_record_before_reset {α : Type} (kLen : Nat) (nb : Bool)
    (norms : Nat → α → α) (x y : α) :
    (mkHistory kLen nb norms).layers = none ∧
    (mkHistory kLen nb norms).add x = none ∧
    ((mkHistory kLen nb norms).clean.add y).isSome = true :=
  ⟨rfl, rfl, rfl⟩

end SDT
